import Mathlib

/-!
Shallow embedding of the face-annotation app (src/app.py): the pair catalog,
the remote ledger (Google Sheet) client, progress reconciliation, the
annotation session state machine, and the super-user flag list.
-/

/-- Validation setting from app.py: minimum explanation length. -/
def MIN_EXPLANATION_LENGTH : Nat := 20

/-- Python str.strip(): drop whitespace from both ends. -/
def pyStrip (s : String) : String :=
  ⟨((s.data.dropWhile Char.isWhitespace).reverse.dropWhile
      Char.isWhitespace).reverse⟩

/-- Python str.lower(): lowercase every character. -/
def pyLower (s : String) : String :=
  ⟨s.data.map Char.toLower⟩

/-- One row of pairs.csv: columns index, A, B, ground_truth, celeb_id. -/
structure PairRecord where
  index : Int
  A : String
  B : String
  ground_truth : String
  celeb_id : String
deriving DecidableEq, Repr

/-- One persisted outcome, in the wire column order of the ledger sheet. -/
structure AnnotationRecord where
  timestamp : String
  annotator_id : String
  pair_index : Int
  image_a : String
  image_b : String
  ground_truth : String
  celeb_id : String
  human_decision : String
  initial_explanation : String
  is_correct : Bool
  followup_explanation : String
deriving DecidableEq, Repr

/-- One stored ledger row as read back by get_all_records.  The pair_index
cell is modelled as an Option: none stands for a missing or non-numeric
cell, for which int(...) in get_completed_pairs raises and the row is
skipped. -/
structure LedgerRow where
  timestamp : String
  annotator_id : String
  pair_index : Option Int
  image_a : String
  image_b : String
  ground_truth : String
  celeb_id : String
  human_decision : String
  initial_explanation : String
  is_correct : Bool
  followup_explanation : String
deriving DecidableEq, Repr

/-- The row append_row writes for an AnnotationRecord: its pair_index cell is
the numeric index, so reading it back always parses. -/
def rowOfRecord (a : AnnotationRecord) : LedgerRow :=
  { timestamp := a.timestamp
    annotator_id := a.annotator_id
    pair_index := some a.pair_index
    image_a := a.image_a
    image_b := a.image_b
    ground_truth := a.ground_truth
    celeb_id := a.celeb_id
    human_decision := a.human_decision
    initial_explanation := a.initial_explanation
    is_correct := a.is_correct
    followup_explanation := a.followup_explanation }

/-- The connected sheet.  appendFails models a remote failure of append_row
(the except branch of save_annotation); readFails models a failure of
get_all_records (the except branch of get_completed_pairs). -/
structure Sheet where
  rows : List LedgerRow
  appendFails : Bool
  readFails : Bool
deriving DecidableEq, Repr

/-- save_annotation (app.py:88-112): returns False when the sheet handle is
None or the remote append raises, True after appending one row. -/
def appendAnnotationRow (sheet : Option Sheet) (a : AnnotationRecord) :
    Bool × Option Sheet :=
  match sheet with
  | none => (false, none)
  | some sh =>
      if sh.appendFails then (false, some sh)
      else (true, some { sh with rows := sh.rows ++ [rowOfRecord a] })

/-- get_completed_pairs (app.py:115-130): empty when the sheet is None or the
annotator id is falsy; otherwise the parseable pair_index cells of the rows
whose annotator_id matches, and empty again if the read raises. -/
def get_completed_pairs (sheet : Option Sheet) (annotator_id : String) :
    List Int :=
  match sheet with
  | none => []
  | some sh =>
      if annotator_id = "" then []
      else if sh.readFails then []
      else (sh.rows.filter (fun r => r.annotator_id == annotator_id)).filterMap
        (fun r => r.pair_index)

/-- ensure_local_progress_initialized (app.py:174-191): when no local cached
set exists, initialize from the sheet (if the annotator id is truthy and the
sheet is available) or empty; in all cases keep only indices present in the
catalog. -/
def ensure_local_progress_initialized (sheet : Option Sheet)
    (pairs : List PairRecord) (annotator_id : String)
    (cached : Option (Finset Int)) : Finset Int :=
  let base : Finset Int :=
    match cached with
    | some c => c
    | none =>
        if annotator_id ≠ "" ∧ sheet.isSome then
          (get_completed_pairs sheet annotator_id).toFinset
        else ∅
  base ∩ (pairs.map (fun p => p.index)).toFinset

/-- The snapshot taken when an incorrect answer is submitted
(app.py:724-731): st.session_state.ground_truth, .decision,
.initial_explanation and .pair_data. -/
structure Snapshot where
  ground_truth : String
  decision : String
  initial_explanation : String
  pair_data : PairRecord
deriving DecidableEq, Repr

/-- The per-session state the annotation interface reads and writes:
completed_local, the submitted (review-pending) flag and the snapshot. -/
structure Session where
  annotator_id : String
  completed_local : Finset Int
  submitted : Bool
  snapshot : Option Snapshot
deriving DecidableEq

/-- remaining (app.py:562-563): catalog index order minus the completed set. -/
def remainingPairs (pairs : List PairRecord) (completed : Finset Int) :
    List Int :=
  (pairs.map (fun p => p.index)).filter (fun i => decide (i ∉ completed))

/-- pairs_df[pairs_df[index] == current_pair].iloc[0] (app.py:592): the first
catalog row carrying the given index. -/
def lookupPair (pairs : List PairRecord) (i : Int) : Option PairRecord :=
  pairs.find? (fun p => decide (p.index = i))

/-- What the annotation interface presents (app.py:582-595): the
all-complete screen when nothing remains, else the first remaining pair
(with the review screen iff submitted is set). -/
inductive Screen where
  | allComplete : Screen
  | annotating : Int → PairRecord → Bool → Screen
deriving DecidableEq, Repr

/-- The screen shown for a session (app.py:582-595). The inner none branch
never fires: the current pair is drawn from the catalog index list itself. -/
def annotationScreen (pairs : List PairRecord) (s : Session) : Screen :=
  match remainingPairs pairs s.completed_local with
  | [] => .allComplete
  | cp :: _ =>
      match lookupPair pairs cp with
      | some pd => .annotating cp pd s.submitted
      | none => .allComplete

/-- Outcome signal of one submit or follow-up action. -/
inductive SubmitResult where
  | allComplete : SubmitResult
  | validationError : SubmitResult
  | saveError : SubmitResult
  | saved : AnnotationRecord → SubmitResult
  | enteredReview : SubmitResult
deriving DecidableEq, Repr

/-- Result of one action: the surfaced signal, the new session and sheet. -/
structure StepOut where
  result : SubmitResult
  session : Session
  sheet : Option Sheet
deriving DecidableEq

/-- The record dict built on a correct submission (app.py:707-719). -/
def correctRecord (s : Session) (pd : PairRecord) (d : String)
    (initial_explanation : String) (timestamp : String) : AnnotationRecord :=
  { timestamp := timestamp
    annotator_id := s.annotator_id
    pair_index := pd.index
    image_a := pd.A
    image_b := pd.B
    ground_truth := pyLower pd.ground_truth
    celeb_id := pd.celeb_id
    human_decision := d
    initial_explanation := initial_explanation
    is_correct := true
    followup_explanation := "" }

/-- The record dict built on the review path (app.py:787-799), from the
snapshot taken at submit time. -/
def followupRecord (s : Session) (snap : Snapshot)
    (followup_explanation : String) (timestamp : String) : AnnotationRecord :=
  { timestamp := timestamp
    annotator_id := s.annotator_id
    pair_index := snap.pair_data.index
    image_a := snap.pair_data.A
    image_b := snap.pair_data.B
    ground_truth := snap.ground_truth
    celeb_id := snap.pair_data.celeb_id
    human_decision := snap.decision
    initial_explanation := snap.initial_explanation
    is_correct := false
    followup_explanation := followup_explanation }

/-- The Submit Answer handler (app.py:694-731): reject a missing decision or
a too-short trimmed explanation with no state change; otherwise compare the
decision with the lowercased ground truth.  On a match, build the
is_correct=true record and persist it, marking the pair complete only on
success; on a mismatch, snapshot the pair plus decision and explanation and
set the review-pending flag, writing nothing. -/
def submit_answer (pairs : List PairRecord) (sheet : Option Sheet)
    (s : Session) (decision : Option String) (initial_explanation : String)
    (timestamp : String) : StepOut :=
  match remainingPairs pairs s.completed_local with
  | [] => ⟨.allComplete, s, sheet⟩
  | current_pair :: _ =>
      match lookupPair pairs current_pair with
      | none => ⟨.allComplete, s, sheet⟩
      | some pair_data =>
          match decision with
          | none => ⟨.validationError, s, sheet⟩
          | some d =>
              if (pyStrip initial_explanation).length < MIN_EXPLANATION_LENGTH
              then ⟨.validationError, s, sheet⟩
              else if d = pyLower pair_data.ground_truth then
                match appendAnnotationRow sheet
                    (correctRecord s pair_data d initial_explanation
                      timestamp) with
                | (true, sheet') =>
                    ⟨.saved (correctRecord s pair_data d initial_explanation
                        timestamp),
                     { s with
                        completed_local :=
                          insert pair_data.index s.completed_local
                        submitted := false }, sheet'⟩
                | (false, sheet') => ⟨.saveError, s, sheet'⟩
              else
                ⟨.enteredReview,
                 { s with
                    submitted := true
                    snapshot := some
                      { ground_truth := pyLower pair_data.ground_truth
                        decision := d
                        initial_explanation := initial_explanation
                        pair_data := pair_data } }, sheet⟩

/-- The Next Pair handler of the review screen (app.py:780-803): reject a
too-short trimmed reflection with no state change; otherwise build the
is_correct=false record from the snapshot, persist it, and only on success
mark the pair complete and clear the review-pending flag.  The none branch
stands for the review screen not being shown without a snapshot. -/
def submit_followup (sheet : Option Sheet) (s : Session)
    (followup_explanation : String) (timestamp : String) : StepOut :=
  match s.snapshot with
  | none => ⟨.validationError, s, sheet⟩
  | some snap =>
      if (pyStrip followup_explanation).length < MIN_EXPLANATION_LENGTH then
        ⟨.validationError, s, sheet⟩
      else
        match appendAnnotationRow sheet
            (followupRecord s snap followup_explanation timestamp) with
        | (true, sheet') =>
            ⟨.saved (followupRecord s snap followup_explanation timestamp),
             { s with
                completed_local :=
                  insert snap.pair_data.index s.completed_local
                submitted := false }, sheet'⟩
        | (false, sheet') => ⟨.saveError, s, sheet'⟩

/-- True when save_annotation would fail: no sheet handle, or append raises. -/
def appendWouldFail : Option Sheet → Bool
  | none => true
  | some sh => sh.appendFails

/-- One flag of the super-user review mode (app.py:494-534). -/
structure ReviewFlag where
  index : Int
  A : String
  B : String
  current_ground_truth : String
  suggested_ground_truth : String
  issue_type : String
  notes : String
deriving DecidableEq, Repr

/-- st.session_state.super_flags.append(...) (app.py:495, 509, 523). -/
def addFlag (flags : List ReviewFlag) (f : ReviewFlag) : List ReviewFlag :=
  flags ++ [f]

/-- drop_duplicates(subset=[index], keep=last) (app.py:541): a flag is kept
iff no later flag carries the same pair index. -/
def dropDupKeepLast : List ReviewFlag → List ReviewFlag
  | [] => []
  | f :: rest =>
      if rest.any (fun g => g.index == f.index) then dropDupKeepLast rest
      else f :: dropDupKeepLast rest

/-- The displayed and exported flag table (app.py:541): deduplicated by
keeping the most recent flag per index, then sorted by index. -/
def dedupFlags (flags : List ReviewFlag) : List ReviewFlag :=
  List.insertionSort (fun a b => a.index ≤ b.index) (dropDupKeepLast flags)

/-- The most recent flag recorded for a pair index, if any. -/
def lastFlagFor (flags : List ReviewFlag) (i : Int) : Option ReviewFlag :=
  (flags.filter (fun g => g.index == i)).getLast?

/-- Column order of the flag export CSV (app.py:497-504, 544). -/
def flagExportHeader : List String :=
  ["index", "A", "B", "current_ground_truth", "suggested_ground_truth",
   "issue_type", "notes"]

/-- One CSV row of the flag export, in header column order. -/
def flagCsvRow (f : ReviewFlag) : List String :=
  [toString f.index, f.A, f.B, f.current_ground_truth,
   f.suggested_ground_truth, f.issue_type, f.notes]

/-- The downloadable flag export (app.py:544-550): header row, then one row
per uniquely-flagged index. -/
def flagExport (flags : List ReviewFlag) : List (List String) :=
  flagExportHeader :: (dedupFlags flags).map flagCsvRow

/-!
Concrete fixtures used by witnesses and counterexamples.
-/

def pairW1 : PairRecord := ⟨1, "a1.jpg", "b1.jpg", "SAME", "c1"⟩

def pairW2 : PairRecord := ⟨2, "a2.jpg", "b2.jpg", "different", "c2"⟩

def catalogW : List PairRecord := [pairW1, pairW2]

def snapW : Snapshot := ⟨"same", "different", "my first explanation text", pairW1⟩

def sessionW : Session := ⟨"alice", ∅, false, none⟩

def sessionR : Session := ⟨"alice", ∅, true, some snapW⟩

def sheetOK : Sheet := ⟨[], false, false⟩

def sheetBad : Sheet := ⟨[], true, false⟩

def explW : String := "this is a long enough explanation"

def fupW : String := "a reflection that is long enough"

/-!
Helper lemmas shared by the claim theorems.
-/

/-- When the sheet handle is missing or append raises, save_annotation
reports failure and the sheet is unchanged. -/
theorem appendRow_fail (sheet : Option Sheet) (a : AnnotationRecord)
    (h : appendWouldFail sheet = true) :
    appendAnnotationRow sheet a = (false, sheet) := by
  cases sheet with
  | none => rfl
  | some sh =>
      simp only [appendWouldFail] at h
      simp [appendAnnotationRow, h]

/-- A step that left the ledger alone: nothing saved, the completed set
kept, and, when the step signalled a persistence error, the session
untouched. -/
def preservedBy (out : StepOut) (s : Session) (sheet : Option Sheet) : Prop :=
  out.session.completed_local = s.completed_local ∧
  out.sheet = sheet ∧
  (∀ a : AnnotationRecord, out.result ≠ .saved a) ∧
  (out.result = .saveError → out.session = s)

/-- C10: the completed-pairs query returns the empty list when the sheet
handle is None or the annotator id is empty, every returned index stems from
a stored row of that annotator whose pair_index cell parses, and on a
reachable sheet the result is exactly the parseable indices of the matching
rows (rows with a missing or non-numeric pair_index are skipped). -/
theorem completed_query_guards_and_parse (sh : Sheet) (aid : String) :
    get_completed_pairs none aid = [] ∧
    get_completed_pairs (some sh) "" = [] ∧
    (∀ n : Int, n ∈ get_completed_pairs (some sh) aid →
      ∃ r, r ∈ sh.rows ∧ r.annotator_id = aid ∧ r.pair_index = some n) ∧
    (sh.readFails = false → aid ≠ "" →
      get_completed_pairs (some sh) aid =
        (sh.rows.filter (fun r => r.annotator_id == aid)).filterMap
          (fun r => r.pair_index)) := by
  refine ⟨rfl, by simp [get_completed_pairs], ?_, ?_⟩
  · intro n hn
    simp only [get_completed_pairs] at hn
    by_cases h1 : aid = ""
    · rw [if_pos h1] at hn; simp at hn
    · rw [if_neg h1] at hn
      by_cases h2 : sh.readFails
      · rw [if_pos h2] at hn; simp at hn
      · rw [if_neg h2] at hn
        obtain ⟨r, hr, hpi⟩ := List.mem_filterMap.mp hn
        obtain ⟨hr1, hr2⟩ := List.mem_filter.mp hr
        exact ⟨r, hr1, by simpa using hr2, hpi⟩
  · intro h1 h2
    simp only [get_completed_pairs]
    rw [if_neg h2, if_neg (by simp [h1])]

/-- C4: progress reconciliation keeps an existing cached set as-is (in
particular it does not depend on the sheet), otherwise initializes from the
ledger query when the annotator id is truthy and the sheet is available and
from the empty set when not; the result is always intersected with the
catalog indices, and reconciling twice yields the same completed set. -/
theorem progress_reconciliation (sheet sheet2 : Option Sheet)
    (pairs : List PairRecord) (aid : String) (c : Finset Int)
    (cached : Option (Finset Int)) :
    (ensure_local_progress_initialized sheet pairs aid (some c) =
      c ∩ (pairs.map (fun p => p.index)).toFinset) ∧
    (ensure_local_progress_initialized sheet pairs aid (some c) =
      ensure_local_progress_initialized sheet2 pairs aid (some c)) ∧
    (aid ≠ "" → sheet ≠ none →
      ensure_local_progress_initialized sheet pairs aid none =
        (get_completed_pairs sheet aid).toFinset ∩
          (pairs.map (fun p => p.index)).toFinset) ∧
    ((aid = "" ∨ sheet = none) →
      ensure_local_progress_initialized sheet pairs aid none = ∅) ∧
    (ensure_local_progress_initialized sheet pairs aid
        (some (ensure_local_progress_initialized sheet pairs aid cached)) =
      ensure_local_progress_initialized sheet pairs aid cached) := by
  refine ⟨rfl, rfl, ?_, ?_, ?_⟩
  · intro h1 h2
    unfold ensure_local_progress_initialized
    rw [if_pos ⟨h1, Option.isSome_iff_ne_none.mpr h2⟩]
  · intro h
    unfold ensure_local_progress_initialized
    rw [if_neg (by
      rcases h with h | h
      · exact fun hc => hc.1 h
      · exact fun hc => (Option.isSome_iff_ne_none.mp hc.2) h)]
    exact Finset.empty_inter _
  · cases cached <;>
      simp [ensure_local_progress_initialized, Finset.inter_assoc]

/-- C5: the remaining list is the catalog index sequence minus the completed
set, in catalog order (a sublist of the catalog indices whose members are
exactly the uncompleted catalog indices), and the all-complete screen is
shown iff that list is empty. -/
theorem remaining_list_and_all_complete (pairs : List PairRecord)
    (s : Session) :
    List.Sublist (remainingPairs pairs s.completed_local)
      (pairs.map (fun p => p.index)) ∧
    (∀ i : Int, i ∈ remainingPairs pairs s.completed_local ↔
      i ∈ pairs.map (fun p => p.index) ∧ i ∉ s.completed_local) ∧
    (annotationScreen pairs s = .allComplete ↔
      remainingPairs pairs s.completed_local = []) := by
  refine ⟨List.filter_sublist _, ?_, ?_⟩
  · intro i
    unfold remainingPairs
    rw [List.mem_filter]
    simp
  · cases hrem : remainingPairs pairs s.completed_local with
    | nil => simp [annotationScreen, hrem]
    | cons cp rest =>
        have hcp : cp ∈ remainingPairs pairs s.completed_local := by
          rw [hrem]; exact List.mem_cons_self cp rest
        have hmem : cp ∈ pairs.map (fun p => p.index) :=
          (List.mem_filter.mp hcp).1
        obtain ⟨p, hp, hpi⟩ := List.mem_map.mp hmem
        have hsome : (lookupPair pairs cp).isSome := by
          apply List.find?_isSome.mpr
          exact ⟨p, hp, by simp [hpi]⟩
        obtain ⟨pd, hpd⟩ := Option.isSome_iff_exists.mp hsome
        simp [annotationScreen, hrem, hpd]

/-- C1: when persisting fails (sheet unavailable or append raising), neither
submit nor follow-up saves a record, the completed set and the sheet are
unchanged, and on the surfaced save error the whole session is unchanged, so
the same pair is re-presented in the same state. -/
theorem failed_persist_preserves_session (pairs : List PairRecord)
    (sheet : Option Sheet) (s : Session) (decision : Option String)
    (expl ts fup ts2 : String) (h : appendWouldFail sheet = true) :
    preservedBy (submit_answer pairs sheet s decision expl ts) s sheet ∧
    preservedBy (submit_followup sheet s fup ts2) s sheet ∧
    (∀ cp rest pd d, remainingPairs pairs s.completed_local = cp :: rest →
      lookupPair pairs cp = some pd → decision = some d →
      MIN_EXPLANATION_LENGTH ≤ (pyStrip expl).length →
      d = pyLower pd.ground_truth →
      (submit_answer pairs sheet s decision expl ts).result = .saveError) ∧
    (∀ snap, s.snapshot = some snap →
      MIN_EXPLANATION_LENGTH ≤ (pyStrip fup).length →
      (submit_followup sheet s fup ts2).result = .saveError) := by
  have hfail := fun a => appendRow_fail sheet a h
  refine ⟨?_, ?_, ?_, ?_⟩
  · unfold submit_answer
    split
    · exact ⟨rfl, rfl, fun a => by simp, fun _ => rfl⟩
    · split
      · exact ⟨rfl, rfl, fun a => by simp, fun _ => rfl⟩
      · split
        · exact ⟨rfl, rfl, fun a => by simp, fun _ => rfl⟩
        · split
          · exact ⟨rfl, rfl, fun a => by simp, fun _ => rfl⟩
          · split
            · split
              · next heq =>
                  rw [hfail _] at heq
                  simp at heq
              · next heq =>
                  rw [hfail _] at heq
                  injection heq with h1 h2
                  refine ⟨rfl, h2.symm, fun a => by simp, fun _ => rfl⟩
            · exact ⟨rfl, rfl, fun a => by simp, fun hx => by simp at hx⟩
  · unfold submit_followup
    split
    · exact ⟨rfl, rfl, fun a => by simp, fun _ => rfl⟩
    · split
      · exact ⟨rfl, rfl, fun a => by simp, fun _ => rfl⟩
      · split
        · next heq =>
            rw [hfail _] at heq
            simp at heq
        · next heq =>
            rw [hfail _] at heq
            injection heq with h1 h2
            refine ⟨rfl, h2.symm, fun a => by simp, fun _ => rfl⟩
  · intro cp rest pd d hrem hfind hdec hlen hdg
    subst hdec
    simp only [submit_answer, hrem, hfind]
    rw [if_neg (Nat.not_lt.mpr hlen), if_pos hdg, hfail _]
  · intro snap hsnap hlen
    simp only [submit_followup, hsnap]
    rw [if_neg (Nat.not_lt.mpr hlen), hfail _]

/-- C1 witness: a concrete simulated outage on a correct submission and on a
follow-up leaves the session and sheet unchanged and surfaces an error. -/
theorem failed_persist_preserves_session_witness :
    preservedBy (submit_answer catalogW (some sheetBad) sessionR
      (some "same") explW "t") sessionR (some sheetBad) ∧
    preservedBy (submit_followup (some sheetBad) sessionR fupW "t2")
      sessionR (some sheetBad) ∧
    (∀ cp rest pd d,
      remainingPairs catalogW sessionR.completed_local = cp :: rest →
      lookupPair catalogW cp = some pd → some "same" = some d →
      MIN_EXPLANATION_LENGTH ≤ (pyStrip explW).length →
      d = pyLower pd.ground_truth →
      (submit_answer catalogW (some sheetBad) sessionR (some "same") explW
        "t").result = .saveError) ∧
    (∀ snap, sessionR.snapshot = some snap →
      MIN_EXPLANATION_LENGTH ≤ (pyStrip fupW).length →
      (submit_followup (some sheetBad) sessionR fupW "t2").result =
        .saveError) :=
  failed_persist_preserves_session catalogW (some sheetBad) sessionR
    (some "same") explW "t" fupW "t2" (by decide)

/-- C2: a valid submission whose decision differs from the ground truth
writes nothing to the ledger and moves the session into the review state
with the pair, decision, explanation and lowercased ground truth
snapshotted; a follow-up of sufficient trimmed length then persists exactly
one is_correct=false record, adds the pair index to the completed set and
clears the review flag. -/
theorem incorrect_path_defer_then_persist (pairs : List PairRecord)
    (sheet : Option Sheet) (s : Session) (cp : Int) (rest : List Int)
    (pd : PairRecord) (d expl ts : String) (s2 : Session) (snap : Snapshot)
    (sh : Sheet) (fup ts2 : String)
    (hrem : remainingPairs pairs s.completed_local = cp :: rest)
    (hfind : lookupPair pairs cp = some pd)
    (hlen : MIN_EXPLANATION_LENGTH ≤ (pyStrip expl).length)
    (hneq : d ≠ pyLower pd.ground_truth)
    (hsnap : s2.snapshot = some snap)
    (hlen2 : MIN_EXPLANATION_LENGTH ≤ (pyStrip fup).length)
    (hok : sh.appendFails = false) :
    submit_answer pairs sheet s (some d) expl ts =
      ⟨.enteredReview,
       { s with
          submitted := true
          snapshot := some ⟨pyLower pd.ground_truth, d, expl, pd⟩ },
       sheet⟩ ∧
    (followupRecord s2 snap fup ts2).is_correct = false ∧
    submit_followup (some sh) s2 fup ts2 =
      ⟨.saved (followupRecord s2 snap fup ts2),
       { s2 with
          completed_local := insert snap.pair_data.index s2.completed_local
          submitted := false },
       some { sh with
                rows := sh.rows ++
                  [rowOfRecord (followupRecord s2 snap fup ts2)] }⟩ := by
  refine ⟨?_, rfl, ?_⟩
  · simp only [submit_answer, hrem, hfind]
    rw [if_neg (Nat.not_lt.mpr hlen), if_neg hneq]
  · simp only [submit_followup, hsnap]
    rw [if_neg (Nat.not_lt.mpr hlen2)]
    simp [appendAnnotationRow, hok]

/-- C2 witness: a concrete wrong answer enters review without a write, and
the concrete follow-up persists one is_correct=false row and completes the
pair. -/
theorem incorrect_path_defer_then_persist_witness :
    submit_answer catalogW (some sheetOK) sessionW (some "different") explW
        "t" =
      ⟨.enteredReview,
       { sessionW with
          submitted := true
          snapshot := some
            ⟨pyLower pairW1.ground_truth, "different", explW, pairW1⟩ },
       some sheetOK⟩ ∧
    (followupRecord sessionR snapW fupW "t2").is_correct = false ∧
    submit_followup (some sheetOK) sessionR fupW "t2" =
      ⟨.saved (followupRecord sessionR snapW fupW "t2"),
       { sessionR with
          completed_local :=
            insert snapW.pair_data.index sessionR.completed_local
          submitted := false },
       some { sheetOK with
                rows := sheetOK.rows ++
                  [rowOfRecord (followupRecord sessionR snapW fupW "t2")] }⟩ :=
  incorrect_path_defer_then_persist catalogW (some sheetOK) sessionW 1 [2]
    pairW1 "different" explW "t" sessionR snapW sheetOK fupW "t2"
    (by decide) (by decide) (by decide) (by decide) (by decide) (by decide)
    (by decide)

/-- C3: a record saved by a correct submission has is_correct=true and an
empty follow-up, a record saved by the review path has is_correct=false and
a follow-up of at least the minimum trimmed length (hence non-empty), and
both carry the pair index, filenames, ground truth, decision and initial
explanation. -/
theorem record_shapes (pairs : List PairRecord) (sheet : Option Sheet)
    (s : Session) (decision : Option String) (expl ts : String)
    (rec1 : AnnotationRecord) (sheet2 : Option Sheet) (s2 : Session)
    (fup ts2 : String) (rec2 : AnnotationRecord)
    (hA : (submit_answer pairs sheet s decision expl ts).result = .saved rec1)
    (hB : (submit_followup sheet2 s2 fup ts2).result = .saved rec2) :
    (rec1.is_correct = true ∧ rec1.followup_explanation = "" ∧
      decision = some rec1.human_decision ∧ rec1.initial_explanation = expl ∧
      ∃ pd, pd ∈ pairs ∧ rec1.pair_index = pd.index ∧
        rec1.image_a = pd.A ∧ rec1.image_b = pd.B ∧
        rec1.ground_truth = pyLower pd.ground_truth) ∧
    (rec2.is_correct = false ∧
      MIN_EXPLANATION_LENGTH ≤ (pyStrip rec2.followup_explanation).length ∧
      rec2.followup_explanation ≠ "" ∧
      ∃ snap, s2.snapshot = some snap ∧
        rec2.pair_index = snap.pair_data.index ∧
        rec2.image_a = snap.pair_data.A ∧ rec2.image_b = snap.pair_data.B ∧
        rec2.ground_truth = snap.ground_truth ∧
        rec2.human_decision = snap.decision ∧
        rec2.initial_explanation = snap.initial_explanation) := by
  constructor
  · cases hrem : remainingPairs pairs s.completed_local with
    | nil => simp [submit_answer, hrem] at hA
    | cons cp rest =>
        cases hfind : lookupPair pairs cp with
        | none => simp [submit_answer, hrem, hfind] at hA
        | some pair_data =>
            cases decision with
            | none => simp [submit_answer, hrem, hfind] at hA
            | some d =>
                simp only [submit_answer, hrem, hfind] at hA
                by_cases hlt :
                    (pyStrip expl).length < MIN_EXPLANATION_LENGTH
                · rw [if_pos hlt] at hA; simp at hA
                · rw [if_neg hlt] at hA
                  by_cases hdg : d = pyLower pair_data.ground_truth
                  · rw [if_pos hdg] at hA
                    split at hA
                    · simp at hA
                      subst hA
                      refine ⟨rfl, rfl, rfl, rfl, pair_data, ?_, rfl, rfl,
                        rfl, rfl⟩
                      unfold lookupPair at hfind
                      exact List.mem_of_find?_eq_some hfind
                    · simp at hA
                  · rw [if_neg hdg] at hA; simp at hA
  · cases hsnap : s2.snapshot with
    | none => simp [submit_followup, hsnap] at hB
    | some snap =>
        simp only [submit_followup, hsnap] at hB
        by_cases hlt : (pyStrip fup).length < MIN_EXPLANATION_LENGTH
        · rw [if_pos hlt] at hB; simp at hB
        · rw [if_neg hlt] at hB
          split at hB
          · simp at hB
            subst hB
            refine ⟨rfl, Nat.le_of_not_lt hlt, ?_, snap, rfl, rfl, rfl,
              rfl, rfl, rfl, rfl⟩
            intro he
            simp only [followupRecord] at he
            rw [he] at hlt
            exact hlt (by decide)
          · simp at hB

/-- C3 witness: the concrete records built by a correct submission and by a
follow-up have the stated shapes. -/
theorem record_shapes_witness :
    ((correctRecord sessionW pairW1 "same" explW "t").is_correct = true ∧
      (correctRecord sessionW pairW1 "same" explW "t").followup_explanation =
        "" ∧
      some "same" =
        some (correctRecord sessionW pairW1 "same" explW "t").human_decision ∧
      (correctRecord sessionW pairW1 "same" explW "t").initial_explanation =
        explW ∧
      ∃ pd, pd ∈ catalogW ∧
        (correctRecord sessionW pairW1 "same" explW "t").pair_index =
          pd.index ∧
        (correctRecord sessionW pairW1 "same" explW "t").image_a = pd.A ∧
        (correctRecord sessionW pairW1 "same" explW "t").image_b = pd.B ∧
        (correctRecord sessionW pairW1 "same" explW "t").ground_truth =
          pyLower pd.ground_truth) ∧
    ((followupRecord sessionR snapW fupW "t2").is_correct = false ∧
      MIN_EXPLANATION_LENGTH ≤
        (pyStrip
          (followupRecord sessionR snapW fupW "t2").followup_explanation).length ∧
      (followupRecord sessionR snapW fupW "t2").followup_explanation ≠ "" ∧
      ∃ snap, sessionR.snapshot = some snap ∧
        (followupRecord sessionR snapW fupW "t2").pair_index =
          snap.pair_data.index ∧
        (followupRecord sessionR snapW fupW "t2").image_a =
          snap.pair_data.A ∧
        (followupRecord sessionR snapW fupW "t2").image_b =
          snap.pair_data.B ∧
        (followupRecord sessionR snapW fupW "t2").ground_truth =
          snap.ground_truth ∧
        (followupRecord sessionR snapW fupW "t2").human_decision =
          snap.decision ∧
        (followupRecord sessionR snapW fupW "t2").initial_explanation =
          snap.initial_explanation) :=
  record_shapes catalogW (some sheetOK) sessionW (some "same") explW "t"
    (correctRecord sessionW pairW1 "same" explW "t") (some sheetOK) sessionR
    fupW "t2" (followupRecord sessionR snapW fupW "t2") (by decide)
    (by decide)

/-- C7: an explanation or reflection whose trimmed length is exactly the
minimum is accepted, one whose trimmed length is one character shorter is
rejected with a validation error and no state change, and a missing
decision is likewise rejected with no state change. -/
theorem validation_boundary (pairs : List PairRecord) (sheet : Option Sheet)
    (s : Session) (cp : Int) (rest : List Int) (pd : PairRecord)
    (d expl expl2 expl3 ts : String) (snap : Snapshot) (fup fup2 ts2 : String)
    (hrem : remainingPairs pairs s.completed_local = cp :: rest)
    (hfind : lookupPair pairs cp = some pd) :
    ((pyStrip expl).length = MIN_EXPLANATION_LENGTH →
      (submit_answer pairs sheet s (some d) expl ts).result ≠
        .validationError) ∧
    ((pyStrip expl2).length + 1 = MIN_EXPLANATION_LENGTH →
      submit_answer pairs sheet s (some d) expl2 ts =
        ⟨.validationError, s, sheet⟩) ∧
    (submit_answer pairs sheet s none expl3 ts =
      ⟨.validationError, s, sheet⟩) ∧
    (s.snapshot = some snap →
      (pyStrip fup).length = MIN_EXPLANATION_LENGTH →
      (submit_followup sheet s fup ts2).result ≠ .validationError) ∧
    ((pyStrip fup2).length + 1 = MIN_EXPLANATION_LENGTH →
      submit_followup sheet s fup2 ts2 = ⟨.validationError, s, sheet⟩) := by
  refine ⟨?_, ?_, ?_, ?_, ?_⟩
  · intro hl hcon
    simp only [submit_answer, hrem, hfind] at hcon
    rw [if_neg (by omega)] at hcon
    by_cases hdg : d = pyLower pd.ground_truth
    · rw [if_pos hdg] at hcon
      split at hcon <;> simp at hcon
    · rw [if_neg hdg] at hcon
      simp at hcon
  · intro hl
    simp only [submit_answer, hrem, hfind]
    rw [if_pos (by omega)]
  · simp [submit_answer, hrem, hfind]
  · intro hsnap hl hcon
    simp only [submit_followup, hsnap] at hcon
    rw [if_neg (by omega)] at hcon
    split at hcon <;> simp at hcon
  · intro hl
    cases hsnap : s.snapshot with
    | none => simp [submit_followup, hsnap]
    | some snap2 =>
        simp only [submit_followup, hsnap]
        rw [if_pos (by omega)]

/-- C7 witness: a 20-character trimmed explanation and reflection are
accepted and 19-character ones are rejected with no state change, at a
concrete session in each mode. -/
theorem validation_boundary_witness :
    ((pyStrip "exactly twenty chars").length = MIN_EXPLANATION_LENGTH →
      (submit_answer catalogW (some sheetOK) sessionR (some "same")
          "exactly twenty chars" "t").result ≠ .validationError) ∧
    ((pyStrip "exactly nineteen ch").length + 1 = MIN_EXPLANATION_LENGTH →
      submit_answer catalogW (some sheetOK) sessionR (some "same")
          "exactly nineteen ch" "t" =
        ⟨.validationError, sessionR, some sheetOK⟩) ∧
    (submit_answer catalogW (some sheetOK) sessionR none "whatever text" "t" =
      ⟨.validationError, sessionR, some sheetOK⟩) ∧
    (sessionR.snapshot = some snapW →
      (pyStrip "exactly twenty chars").length = MIN_EXPLANATION_LENGTH →
      (submit_followup (some sheetOK) sessionR "exactly twenty chars"
          "t2").result ≠ .validationError) ∧
    ((pyStrip "exactly nineteen ch").length + 1 = MIN_EXPLANATION_LENGTH →
      submit_followup (some sheetOK) sessionR "exactly nineteen ch" "t2" =
        ⟨.validationError, sessionR, some sheetOK⟩) :=
  validation_boundary catalogW (some sheetOK) sessionR 1 [2] pairW1 "same"
    "exactly twenty chars" "exactly nineteen ch" "whatever text" "t" snapW
    "exactly twenty chars" "exactly nineteen ch" "t2" (by decide) (by decide)

/-- C8: the code decides correctness by comparing the submitted label with
the lowercased ground truth; for the two fixed labels that comparison agrees
with comparing both sides lowercased (case-insensitive), and a ground truth
whose lowercasing is neither label makes every submission incorrect (the
review path is entered), with no special handling. -/
theorem correctness_case_insensitive (pairs : List PairRecord)
    (sheet : Option Sheet) (s : Session) (cp : Int) (rest : List Int)
    (pd : PairRecord) (d expl ts : String)
    (hrem : remainingPairs pairs s.completed_local = cp :: rest)
    (hfind : lookupPair pairs cp = some pd)
    (hd : d = "same" ∨ d = "different")
    (hlen : MIN_EXPLANATION_LENGTH ≤ (pyStrip expl).length) :
    ((submit_answer pairs sheet s (some d) expl ts).result =
        .enteredReview ↔ d ≠ pyLower pd.ground_truth) ∧
    (d = pyLower pd.ground_truth ↔ pyLower d = pyLower pd.ground_truth) ∧
    (pyLower pd.ground_truth ≠ "same" →
      pyLower pd.ground_truth ≠ "different" →
      (submit_answer pairs sheet s (some d) expl ts).result =
        .enteredReview) := by
  have hlow : pyLower d = d := by
    rcases hd with h | h <;> subst h <;> decide
  refine ⟨?_, by rw [hlow], ?_⟩
  · simp only [submit_answer, hrem, hfind]
    rw [if_neg (Nat.not_lt.mpr hlen)]
    by_cases hdg : d = pyLower pd.ground_truth
    · rw [if_pos hdg]
      constructor
      · intro hco
        split at hco <;> simp at hco
      · intro hco
        exact absurd hdg hco
    · rw [if_neg hdg]
      simp [hdg]
  · intro h1 h2
    have hneq : d ≠ pyLower pd.ground_truth := by
      rcases hd with h | h <;> subst h
      · exact fun hc => h1 hc.symm
      · exact fun hc => h2 hc.symm
    simp only [submit_answer, hrem, hfind]
    rw [if_neg (Nat.not_lt.mpr hlen), if_neg hneq]

/-- C8 witness: at a pair whose stored ground truth is the out-of-enum value
"unknown", a valid SAME submission is counted incorrect and enters review. -/
theorem correctness_case_insensitive_witness :
    ((submit_answer [⟨7, "x.jpg", "y.jpg", "unknown", "cx"⟩] (some sheetOK)
          sessionW (some "same") explW "t").result = .enteredReview ↔
      "same" ≠ pyLower (⟨7, "x.jpg", "y.jpg", "unknown",
        "cx"⟩ : PairRecord).ground_truth) ∧
    ("same" = pyLower (⟨7, "x.jpg", "y.jpg", "unknown",
        "cx"⟩ : PairRecord).ground_truth ↔
      pyLower "same" = pyLower (⟨7, "x.jpg", "y.jpg", "unknown",
        "cx"⟩ : PairRecord).ground_truth) ∧
    (pyLower (⟨7, "x.jpg", "y.jpg", "unknown",
        "cx"⟩ : PairRecord).ground_truth ≠ "same" →
      pyLower (⟨7, "x.jpg", "y.jpg", "unknown",
        "cx"⟩ : PairRecord).ground_truth ≠ "different" →
      (submit_answer [⟨7, "x.jpg", "y.jpg", "unknown", "cx"⟩] (some sheetOK)
          sessionW (some "same") explW "t").result = .enteredReview) :=
  correctness_case_insensitive [⟨7, "x.jpg", "y.jpg", "unknown", "cx"⟩]
    (some sheetOK) sessionW 7 [] ⟨7, "x.jpg", "y.jpg", "unknown", "cx"⟩
    "same" explW "t" (by decide) (by decide) (Or.inl rfl) (by decide)

/-!
Fixture for the C6 counterexample: a catalog that is not sorted by index.
-/

def pairC1 : PairRecord := ⟨2, "p2a.jpg", "p2b.jpg", "same", "g2"⟩

def pairC2 : PairRecord := ⟨1, "p1a.jpg", "p1b.jpg", "same", "g1"⟩

def catalogC : List PairRecord := [pairC1, pairC2]

def sessionC : Session := ⟨"bob12", ∅, false, none⟩

/-- C6 counterexample: with a catalog whose rows are not sorted by index,
the presented pair is the first in catalog order (index 2) even though
index 1 also remains, so the next pair is not the remaining pair with the
lowest index. -/
theorem next_pair_lowest_counterexample :
    annotationScreen catalogC sessionC = .annotating 2 pairC1 false ∧
    (1 : Int) ∈ remainingPairs catalogC sessionC.completed_local ∧
    ¬ ((2 : Int) ≤ 1) := by decide

/-- C6 amended: the presented pair is the first element of catalog order
minus the completed set, hence a deterministic function of the catalog and
the completed set; when the catalog indices are sorted ascending it is also
the remaining pair with the lowest index. -/
theorem next_pair_first_remaining (pairs : List PairRecord) (s : Session)
    (cp : Int) (pd : PairRecord) (rev : Bool)
    (hscr : annotationScreen pairs s = .annotating cp pd rev)
    (hsorted : (pairs.map (fun p => p.index)).Sorted (· ≤ ·)) :
    (remainingPairs pairs s.completed_local).head? = some cp ∧
    cp ∈ remainingPairs pairs s.completed_local ∧
    lookupPair pairs cp = some pd ∧
    (∀ i ∈ remainingPairs pairs s.completed_local, cp ≤ i) := by
  have hs2 : (remainingPairs pairs s.completed_local).Sorted (· ≤ ·) :=
    List.Pairwise.filter _ hsorted
  cases hrem : remainingPairs pairs s.completed_local with
  | nil => simp [annotationScreen, hrem] at hscr
  | cons cp2 rest =>
      cases hlp : lookupPair pairs cp2 with
      | none => simp [annotationScreen, hrem, hlp] at hscr
      | some pd2 =>
          simp only [annotationScreen, hrem, hlp] at hscr
          simp only [Screen.annotating.injEq] at hscr
          obtain ⟨h1, h2, h3⟩ := hscr
          subst h1; subst h2
          rw [hrem] at hs2
          refine ⟨by simp, List.mem_cons_self _ _, hlp, ?_⟩
          intro i hi
          rcases List.mem_cons.mp hi with h | h
          · subst h; exact le_refl _
          · exact List.rel_of_sorted_cons hs2 i h

/-- C6 amended witness: on a concrete catalog sorted by index, the presented
pair 1 is the lowest remaining index. -/
theorem next_pair_first_remaining_witness :
    (remainingPairs catalogW sessionW.completed_local).head? = some 1 ∧
    (1 : Int) ∈ remainingPairs catalogW sessionW.completed_local ∧
    lookupPair catalogW 1 = some pairW1 ∧
    (∀ i ∈ remainingPairs catalogW sessionW.completed_local, (1 : Int) ≤ i) :=
  next_pair_first_remaining catalogW sessionW 1 pairW1 false (by decide)
    (by decide)

/-- The deduplicated flag list only holds flags that were recorded. -/
theorem mem_of_mem_dropDupKeepLast {l : List ReviewFlag} {f : ReviewFlag}
    (h : f ∈ dropDupKeepLast l) : f ∈ l := by
  induction l with
  | nil => simp [dropDupKeepLast] at h
  | cons g rest ih =>
      simp only [dropDupKeepLast] at h
      split at h
      · exact List.mem_cons_of_mem _ (ih h)
      · rcases List.mem_cons.mp h with h | h
        · exact h ▸ List.mem_cons_self _ _
        · exact List.mem_cons_of_mem _ (ih h)

/-- After keep-last deduplication, every pair index appears at most once. -/
theorem nodup_indices_dropDupKeepLast (l : List ReviewFlag) :
    ((dropDupKeepLast l).map (fun f => f.index)).Nodup := by
  induction l with
  | nil => simp [dropDupKeepLast]
  | cons g rest ih =>
      simp only [dropDupKeepLast]
      split
      · exact ih
      · next hany =>
          simp only [List.map_cons, List.nodup_cons]
          refine ⟨?_, ih⟩
          intro hmem
          obtain ⟨f, hf, hfi⟩ := List.mem_map.mp hmem
          have hfr : f ∈ rest := mem_of_mem_dropDupKeepLast hf
          exact hany (List.any_eq_true.mpr ⟨f, hfr, by simp [hfi]⟩)

/-- getLast? skips the head of a list with a non-empty tail. -/
theorem getLast?_cons_of_ne_nil (a : ReviewFlag) {l : List ReviewFlag}
    (h : l ≠ []) : (a :: l).getLast? = l.getLast? := by
  cases l with
  | nil => exact absurd rfl h
  | cons b t => simp [List.getLast?_cons_cons]

/-- The keep-last deduplication keeps exactly the most recent flag recorded
for each flagged pair index. -/
theorem mem_dropDupKeepLast_iff (l : List ReviewFlag) (f : ReviewFlag) :
    f ∈ dropDupKeepLast l ↔ lastFlagFor l f.index = some f := by
  induction l with
  | nil => simp [dropDupKeepLast, lastFlagFor]
  | cons g rest ih =>
      unfold lastFlagFor at ih ⊢
      by_cases hany : rest.any (fun x => x.index == g.index) = true
      · simp only [dropDupKeepLast, if_pos hany]
        rw [ih]
        by_cases hgi : g.index = f.index
        · obtain ⟨x, hx, hxi⟩ := List.any_eq_true.mp hany
          have hxf : x.index == f.index := by
            rw [beq_iff_eq] at hxi ⊢
            rw [hxi, hgi]
          have hne : rest.filter (fun y => y.index == f.index) ≠ [] := by
            intro hemp
            have hxm : x ∈ rest.filter (fun y => y.index == f.index) :=
              List.mem_filter.mpr ⟨hx, hxf⟩
            rw [hemp] at hxm
            simp at hxm
          rw [List.filter_cons, if_pos (by rw [beq_iff_eq]; exact hgi),
            getLast?_cons_of_ne_nil _ hne]
        · rw [List.filter_cons, if_neg (by rw [beq_iff_eq]; exact hgi)]
      · simp only [dropDupKeepLast, if_neg hany]
        by_cases hgi : g.index = f.index
        · have hemp : rest.filter (fun y => y.index == f.index) = [] := by
            rw [List.filter_eq_nil_iff]
            intro y hy hyx
            apply hany
            apply List.any_eq_true.mpr
            refine ⟨y, hy, ?_⟩
            rw [beq_iff_eq] at hyx ⊢
            rw [hyx, hgi]
          rw [List.filter_cons, if_pos (by rw [beq_iff_eq]; exact hgi), hemp]
          constructor
          · intro hmem
            rcases List.mem_cons.mp hmem with h | h
            · rw [h]; rfl
            · exfalso
              have hlast := ih.mp h
              rw [hemp] at hlast
              simp at hlast
          · intro h
            injection h with h
            exact h ▸ List.mem_cons_self _ _
        · rw [List.filter_cons, if_neg (by rw [beq_iff_eq]; exact hgi), ← ih]
          constructor
          · intro hmem
            rcases List.mem_cons.mp hmem with h | h
            · exact absurd (by rw [h]) hgi
            · exact h
          · exact fun h => List.mem_cons_of_mem _ h

/-- C9: the displayed and exported flag table has exactly one row per
flagged pair index (indices are pairwise distinct), that row is the most
recently appended flag for its index, an index has a row iff it was ever
flagged, and the export is the fixed header followed by one CSV row per
uniquely-flagged index. -/
theorem flag_table_one_row_per_index (flags : List ReviewFlag) :
    ((dedupFlags flags).map (fun f => f.index)).Nodup ∧
    (∀ f : ReviewFlag, f ∈ dedupFlags flags ↔
      lastFlagFor flags f.index = some f) ∧
    (∀ i : Int, (∃ f ∈ dedupFlags flags, f.index = i) ↔
      ∃ f ∈ flags, f.index = i) ∧
    flagExport flags =
      flagExportHeader :: (dedupFlags flags).map flagCsvRow := by
  have hperm : List.Perm (dedupFlags flags) (dropDupKeepLast flags) :=
    List.perm_insertionSort _ _
  refine ⟨?_, ?_, ?_, rfl⟩
  · exact ((hperm.map _).nodup_iff).mpr (nodup_indices_dropDupKeepLast flags)
  · exact fun f => (hperm.mem_iff).trans (mem_dropDupKeepLast_iff flags f)
  · intro i
    constructor
    · rintro ⟨f, hf, hfi⟩
      exact ⟨f, mem_of_mem_dropDupKeepLast (hperm.mem_iff.mp hf), hfi⟩
    · rintro ⟨f, hf, hfi⟩
      have hne : flags.filter (fun y => y.index == i) ≠ [] :=
        List.ne_nil_of_mem
          (List.mem_filter.mpr ⟨hf, by rw [beq_iff_eq]; exact hfi⟩)
      refine ⟨(flags.filter (fun y => y.index == i)).getLast hne, ?_, ?_⟩
      · have hlast :=
          List.getLast?_eq_getLast_of_ne_nil hne
        have hmemf : (flags.filter (fun y => y.index == i)).getLast hne ∈
            flags.filter (fun y => y.index == i) := List.getLast_mem hne
        have hidx : ((flags.filter (fun y => y.index == i)).getLast
            hne).index = i := by
          have := (List.mem_filter.mp hmemf).2
          rwa [beq_iff_eq] at this
        rw [hperm.mem_iff, mem_dropDupKeepLast_iff]
        unfold lastFlagFor
        rw [hidx]
        exact hlast
      · have hmemf : (flags.filter (fun y => y.index == i)).getLast hne ∈
            flags.filter (fun y => y.index == i) := List.getLast_mem hne
        have := (List.mem_filter.mp hmemf).2
        rwa [beq_iff_eq] at this

